import Mathlib

/-!
Verification development for the `metadata_names` repository.

The repository harvests human names from document metadata:
`metadata_names/__init__.py` holds the library harvester
`extract_metadata_names`, `extract_metadata_names.py` holds a standalone
CLI variant of the same harvester plus the `main` entry point, and
`metadata_names/extractors/` holds per-format extractors keyed by MIME
type.  This file gives a shallow embedding of that code and proves the
frozen claims about it.

Strings are embedded as `List Char`, byte strings as `List (Fin 256)`,
and the Python `set` accumulator as a `Finset`.  The external
collaborators `unicodedata.category` and `str.isspace` are embedded as
explicit function parameters (`cat`, `ws`); a concrete instantiation
faithful on the Latin-1 range is provided for witnesses and concrete
scenarios.
-/

/-- A raw or normalized name: a Python `str` as a list of characters. -/
abbrev RawName := List Char

/-- A Python `bytes` value: a list of byte values. -/
abbrev ByteString := List (Fin 256)

/-- The set of Unicode general categories kept by the normalizer,
from `{"Lu", "Ll", "Zs"}` in `metadata_names/__init__.py`. -/
def keptCategories : List String := ["Lu", "Ll", "Zs"]

/-- Python `str.strip()` with whitespace predicate `ws`: remove leading
and trailing characters satisfying `ws`. -/
def pyStrip (ws : Char → Bool) (s : List Char) : List Char :=
  (s.dropWhile ws).rdropWhile ws

/-- The name normalizer from the return expression of
`extract_metadata_names`: keep only characters whose Unicode general
category (embedded as the parameter `cat`, standing for
`unicodedata.category`) is in `{"Lu", "Ll", "Zs"}`, then strip
leading/trailing whitespace (`ws` standing for the `str.isspace`
classification used by `str.strip`). -/
def normalizeNameWith (cat : Char → String) (ws : Char → Bool) (s : List Char) :
    List Char :=
  pyStrip ws (s.filter (fun c => decide (cat c ∈ keptCategories)))

/-- Python `unicodedata.category`, embedded faithfully on the Latin-1
range (code points 0x00 to 0xFF, the only range reachable from latin-1
decoding and the range used by every concrete input in this file).
Code points at 0x100 and above are unassigned in this restriction and
report "Cn". -/
def latin1Category (c : Char) : String :=
  let n := c.toNat
  if 0x100 ≤ n then ("Cn")
  else if n ≤ 0x1F then ("Cc")
  else if n = 0x20 then ("Zs")
  else if 0x30 ≤ n ∧ n ≤ 0x39 then ("Nd")
  else if 0x41 ≤ n ∧ n ≤ 0x5A then ("Lu")
  else if 0x61 ≤ n ∧ n ≤ 0x7A then ("Ll")
  else if n = 0x7F ∨ (0x80 ≤ n ∧ n ≤ 0x9F) then ("Cc")
  else if n = 0xA0 then ("Zs")
  else if n = 0x24 ∨ (0xA2 ≤ n ∧ n ≤ 0xA5) then ("Sc")
  else if n = 0x28 ∨ n = 0x5B ∨ n = 0x7B then ("Ps")
  else if n = 0x29 ∨ n = 0x5D ∨ n = 0x7D then ("Pe")
  else if n = 0x2D then ("Pd")
  else if n = 0x5F then ("Pc")
  else if n = 0x2B ∨ n = 0x3C ∨ n = 0x3D ∨ n = 0x3E ∨ n = 0x7C ∨ n = 0x7E
      ∨ n = 0xAC ∨ n = 0xB1 ∨ n = 0xD7 ∨ n = 0xF7 then ("Sm")
  else if n = 0x5E ∨ n = 0x60 ∨ n = 0xA8 ∨ n = 0xAF ∨ n = 0xB4 ∨ n = 0xB8 then ("Sk")
  else if n = 0xA6 ∨ n = 0xA9 ∨ n = 0xAE ∨ n = 0xB0 then ("So")
  else if n = 0xAA ∨ n = 0xBA then ("Lo")
  else if n = 0xAB then ("Pi")
  else if n = 0xBB then ("Pf")
  else if n = 0xAD then ("Cf")
  else if n = 0xB2 ∨ n = 0xB3 ∨ n = 0xB9 ∨ (0xBC ≤ n ∧ n ≤ 0xBE) then ("No")
  else if (0xC0 ≤ n ∧ n ≤ 0xD6) ∨ (0xD8 ≤ n ∧ n ≤ 0xDE) then ("Lu")
  else if n = 0xB5 ∨ (0xDF ≤ n ∧ n ≤ 0xF6) ∨ 0xF8 ≤ n then ("Ll")
  else ("Po")

/-- Python `str.isspace`, embedded faithfully on the Latin-1 range:
0x09 to 0x0D, 0x1C to 0x1F, space, 0x85 and no-break space. -/
def latin1Isspace (c : Char) : Bool :=
  let n := c.toNat
  decide ((0x09 ≤ n ∧ n ≤ 0x0D) ∨ (0x1C ≤ n ∧ n ≤ 0x1F) ∨ n = 0x20 ∨ n = 0x85 ∨ n = 0xA0)

/-- latin-1 decoding of a byte string: each byte maps to the character
with the same code point.  In Python this decoding is total: every byte
value is valid latin-1. -/
def latin1Decode (bs : ByteString) : List Char :=
  bs.map (fun b => Char.ofNat b.val)

section StripLemmas

variable {α : Type} (p : α → Bool)

theorem head?_dropWhile_false : ∀ (l : List α) (c : α),
    (l.dropWhile p).head? = some c → p c = false := by
  intro l
  induction l with
  | nil => intro c h; simp [List.dropWhile] at h
  | cons a t ih =>
    intro c h
    rw [List.dropWhile_cons] at h
    by_cases hpa : p a
    · rw [if_pos hpa] at h
      exact ih c h
    · rw [if_neg hpa] at h
      simp only [List.head?_cons, Option.some.injEq] at h
      rw [← h]
      exact Bool.eq_false_iff.mpr hpa

theorem dropWhile_eq_self_of_head? (l : List α)
    (h : ∀ c, l.head? = some c → p c = false) : l.dropWhile p = l := by
  cases l with
  | nil => rfl
  | cons a t =>
    rw [List.dropWhile_cons, h a rfl]
    simp

end StripLemmas

/-- The head of a stripped string is not whitespace. -/
theorem head?_pyStrip_false (ws : Char → Bool) (s : List Char) (c : Char)
    (h : (pyStrip ws s).head? = some c) : ws c = false := by
  unfold pyStrip at h
  obtain ⟨t, ht⟩ := List.rdropWhile_prefix ws (s.dropWhile ws)
  have hhead : (s.dropWhile ws).head? = some c := by
    rw [← ht, List.head?_append_of_ne_nil]
    · exact h
    · intro hnil
      rw [hnil] at h
      simp at h
  exact head?_dropWhile_false ws _ c hhead

/-- The last character of a stripped string is not whitespace. -/
theorem getLast?_pyStrip_false (ws : Char → Bool) (s : List Char) (c : Char)
    (h : (pyStrip ws s).getLast? = some c) : ws c = false := by
  unfold pyStrip List.rdropWhile at h
  rw [List.getLast?_reverse] at h
  exact head?_dropWhile_false ws _ c h

/-- Stripping is idempotent. -/
theorem pyStrip_idem (ws : Char → Bool) (s : List Char) :
    pyStrip ws (pyStrip ws s) = pyStrip ws s := by
  have h1 : (pyStrip ws s).dropWhile ws = pyStrip ws s :=
    dropWhile_eq_self_of_head? ws _ (head?_pyStrip_false ws s)
  show ((pyStrip ws s).dropWhile ws).rdropWhile ws = pyStrip ws s
  rw [h1]
  unfold pyStrip
  exact List.rdropWhile_idempotent ws _

/-- Every character of a stripped string is a character of the input. -/
theorem mem_of_mem_pyStrip (ws : Char → Bool) (s : List Char) (c : Char)
    (h : c ∈ pyStrip ws s) : c ∈ s := by
  unfold pyStrip at h
  have h1 : c ∈ s.dropWhile ws :=
    (List.IsPrefix.sublist (List.rdropWhile_prefix ws _)).subset h
  exact (List.IsSuffix.sublist (List.dropWhile_suffix ws)).subset h1

/-! ## Extractor registry

From `metadata_names/extractors/__init__.py`:
`register_metadata_extractor` adds every MIME type of a registered class
to `MIME_TYPE_TO_EXTRACTOR_CLASS`, and `extractor_from_mime_type` is a
dictionary lookup (raising `KeyError` when the MIME type is absent,
embedded as `none`).  The three registered classes and their `MIME_TYPES`
sets come from `msxml.py`, `ole.py` and `pdf.py`; the sets are pairwise
disjoint, so the registration order is irrelevant. -/

/-- The three extractor variants registered in the repository. -/
inductive ExtractorKind where
  | msxml
  | ole
  | pdf
deriving DecidableEq

/-- `MSXMLMetadataExtractor.MIME_TYPES` from `extractors/msxml.py`. -/
def msxmlMimeTypes : List String := [
  "application/vnd.ms-excel.addin.macroEnabled.12",
  "application/vnd.ms-excel.sheet.binary.macroEnabled.12",
  "application/vnd.ms-excel.sheet.macroEnabled.12",
  "application/vnd.ms-excel.template.macroEnabled.12",
  "application/vnd.ms-powerpoint.addin.macroEnabled.12",
  "application/vnd.ms-powerpoint.presentation.macroEnabled.12",
  "application/vnd.ms-powerpoint.slideshow.macroEnabled.12",
  "application/vnd.ms-powerpoint.template.macroEnabled.12",
  "application/vnd.ms-word.document.macroEnabled.12",
  "application/vnd.ms-word.template.macroEnabled.12",
  "application/vnd.openxmlformats-officedocument.presentationml.presentation",
  "application/vnd.openxmlformats-officedocument.presentationml.slideshow",
  "application/vnd.openxmlformats-officedocument.presentationml.template",
  "application/vnd.openxmlformats-officedocument.spreadsheetml.sheet",
  "application/vnd.openxmlformats-officedocument.spreadsheetml.template",
  "application/vnd.openxmlformats-officedocument.wordprocessingml.document",
  "application/vnd.openxmlformats-officedocument.wordprocessingml.template"]

/-- `OLEMetadataExtractor.MIME_TYPES` from `extractors/ole.py`. -/
def oleMimeTypes : List String := [
  "application/msword",
  "application/vnd.ms-excel",
  "application/vnd.ms-powerpoint"]

/-- `PDFMetadataExtractor.MIME_TYPES` from `extractors/pdf.py`. -/
def pdfMimeTypes : List String := ["application/pdf"]

/-- `MetadataExtractor.extractor_from_mime_type`: the registry lookup.
`none` embeds the `KeyError` raised on an unregistered MIME type. -/
def extractor_from_mime_type (mime_type : String) : Option ExtractorKind :=
  if msxmlMimeTypes.contains mime_type then some ExtractorKind.msxml
  else if oleMimeTypes.contains mime_type then some ExtractorKind.ole
  else if pdfMimeTypes.contains mime_type then some ExtractorKind.pdf
  else none

/-! ## Per-file input model

The harvester in `metadata_names/__init__.py` dispatches to extractor
classes imported from the external `metadata_extractor` package, which is
not part of this repository.  Their result shapes are modelled from the
spec (sections 3, 4.2, 4.3, 4.4): an OOXML result keyed by internal XML
part name whose core-properties section carries creator and
last-modified-by raw strings, an OLE result keyed by attribute name with
byte-string values, and a PDF info dictionary with a byte-string Author
value.  Each input file is embedded as the observations the harvester
makes of it: its path, the MIME type reported by the external detector
(`none` embeds a `FileNotFoundError`), and the outcome of running the
dispatched extractor on it. -/

/-- Modelled from the spec: the core-properties section (the "core.xml"
key) of the external OOXML extractor result, carrying the
the "dc:creator" and "cp:lastmodifiedby" raw string values read by the
harvester. -/
structure OOXMLCoreProps where
  creator : Option RawName
  lastModifiedBy : Option RawName
deriving DecidableEq

/-- The outcome of calling `from_path` of the dispatched extractor on a
file: it raises (corrupt document), returns a falsy (empty) structure,
or returns one of the three spec-modelled result shapes. -/
inductive ExtractionOutcome where
  | raises
  | emptyMeta
  | msxmlMeta (core : Option OOXMLCoreProps)
  | oleMeta (author last_saved_by : Option ByteString)
  | pdfMeta (author : Option ByteString)
deriving DecidableEq

/-- One input file as observed by the harvester. -/
structure InputFile where
  path : String
  mimetype : Option String
  outcome : ExtractionOutcome
deriving DecidableEq

/-- `metadata.get` at key "core.xml": only an OOXML-shaped result has the key;
on any other dictionary shape the lookup yields `None`. -/
def lookupCoreXml : ExtractionOutcome → Option OOXMLCoreProps
  | ExtractionOutcome.msxmlMeta core => core
  | _ => none

/-- `metadata.get` at key "author": only an OLE-shaped result has the key. -/
def lookupOleAuthor : ExtractionOutcome → Option ByteString
  | ExtractionOutcome.oleMeta author _ => author
  | _ => none

/-- `metadata.get` at key "last_saved_by": only an OLE-shaped result has the
key. -/
def lookupOleLastSavedBy : ExtractionOutcome → Option ByteString
  | ExtractionOutcome.oleMeta _ last_saved_by => last_saved_by
  | _ => none

/-- `metadata.get` at key "Author" with default empty bytes with the default applied by the
caller: only a PDF-shaped result has the key. -/
def lookupPdfAuthor : ExtractionOutcome → Option ByteString
  | ExtractionOutcome.pdfMeta author => author
  | _ => none

/-- The `if not metadata: continue` truthiness test: an empty dictionary
is falsy. -/
def isFalsy : ExtractionOutcome → Bool
  | ExtractionOutcome.emptyMeta => true
  | _ => false

/-- The BOM handling of the PDF branch: `if author_bytes.startswith
(BOM)` on the two bytes 0xFE 0xFF, then `author_bytes = author_bytes[2:]`. -/
def stripBom (bs : ByteString) : ByteString :=
  match bs with
  | 0xFE :: 0xFF :: rest => rest
  | _ => bs

/-! ## The harvester walk -/

/-- Exceptions that can escape one loop iteration of the harvester. -/
inductive RunError where
  | unsupportedMimetype (observed_mimetype file_path : String)
  | uncaught
deriving DecidableEq

/-- The two conditional set additions of the OOXML branch of the
harvester loop: `if creator := core_metadata.get(...)` and
`if last_modified_by := core_metadata.get(...)`.  The walrus conditions
make a field truthy exactly when it is present and non-empty. -/
def addOoxmlNames (core : OOXMLCoreProps) (names : Finset RawName) :
    Finset RawName :=
  let names1 :=
    match core.creator with
    | some creator => if creator = [] then names else insert creator names
    | none => names
  match core.lastModifiedBy with
  | some lmb => if lmb = [] then names1 else insert lmb names1
  | none => names1

/-- The two conditional set additions of the OLE branch of the harvester
loop, each decoding its byte value with latin-1 before adding it. -/
def addOleNames (author last_saved_by : Option ByteString)
    (names : Finset RawName) : Finset RawName :=
  let names1 :=
    match author with
    | some bs => if bs = [] then names else insert (latin1Decode bs) names
    | none => names
  match last_saved_by with
  | some bs => if bs = [] then names1 else insert (latin1Decode bs) names1
  | none => names1

/-- The PDF branch of the harvester loop: take the Author bytes with an
empty default, strip a leading UTF-16BE BOM, decode with latin-1, and
add the result when non-empty. -/
def addPdfName (author : Option ByteString) (names : Finset RawName) :
    Finset RawName :=
  let author_bytes := author.getD []
  let name := latin1Decode (stripBom author_bytes)
  if name = [] then names else insert name names

/-- The field-pulling part of one loop iteration, shared verbatim by the
library harvester (`metadata_names/__init__.py`) and the CLI variant
(`extract_metadata_names.py`): branch on the extractor variant and add
each truthy name-bearing field to the accumulated set.  In the `msxml`
branch, a missing "core.xml" key makes `core_metadata` `None` and the
subsequent `.get` raises an `AttributeError`, embedded as
`RunError.uncaught`.  In the `pdf` branch the `try`/`except` around
decoding never fires because latin-1 decoding of a byte string is
total. -/
def dispatchMetadata (strict : Bool) (names : Finset RawName)
    (path mimetype : String) (outcome : ExtractionOutcome) :
    Except RunError (Finset RawName) :=
  match extractor_from_mime_type mimetype with
  | none =>
    if strict then Except.error (RunError.unsupportedMimetype mimetype path)
    else Except.ok names
  | some kind =>
    match outcome with
    | ExtractionOutcome.raises => Except.error RunError.uncaught
    | outcome =>
      if isFalsy outcome then Except.ok names
      else
        match kind with
        | ExtractorKind.msxml =>
          match lookupCoreXml outcome with
          | none => Except.error RunError.uncaught
          | some core => Except.ok (addOoxmlNames core names)
        | ExtractorKind.ole =>
          Except.ok (addOleNames (lookupOleAuthor outcome)
            (lookupOleLastSavedBy outcome) names)
        | ExtractorKind.pdf =>
          Except.ok (addPdfName (lookupPdfAuthor outcome) names)

/-- One loop iteration of the library harvester
(`metadata_names/__init__.py`): a `FileNotFoundError` from the MIME
detector is caught, logged as a warning, and the file is skipped. -/
def processFile (strict : Bool) (names : Finset RawName) (f : InputFile) :
    Except RunError (Finset RawName) :=
  match f.mimetype with
  | none => Except.ok names
  | some mimetype => dispatchMetadata strict names f.path mimetype f.outcome

/-- One loop iteration of the CLI harvester variant
(`extract_metadata_names.py`): the MIME detection call is not guarded,
so a `FileNotFoundError` propagates (the `except Exception as e: raise e`
clause re-raises unchanged). -/
def processFileCli (strict : Bool) (names : Finset RawName) (f : InputFile) :
    Except RunError (Finset RawName) :=
  match f.mimetype with
  | none => Except.error RunError.uncaught
  | some mimetype => dispatchMetadata strict names f.path mimetype f.outcome

/-- How the walk over the path list ends. -/
inductive WalkExit where
  | finished (names : Finset RawName)
  | interrupted (names : Finset RawName)
  | failed (e : RunError)
deriving DecidableEq

/-- The walk over the path list.  `intr = some k` embeds a user
interrupt (`KeyboardInterrupt`) arriving before the k-th remaining file
is processed; the interrupt is polled between files, matching the
sequential model of the code. -/
def walkWith (step : Finset RawName → InputFile → Except RunError (Finset RawName)) :
    Option Nat → Finset RawName → List InputFile → WalkExit
  | _, names, [] => WalkExit.finished names
  | intr, names, f :: fs =>
    match intr with
    | some 0 => WalkExit.interrupted names
    | _ =>
      match step names f with
      | Except.error e => WalkExit.failed e
      | Except.ok names1 => walkWith step (intr.map Nat.pred) names1 fs

/-- The final set comprehension of both harvesters: normalize every
accumulated raw name (values may collide, giving the dedup behavior of
a set). -/
def normalizeSet (cat : Char → String) (ws : Char → Bool)
    (names : Finset RawName) : Finset RawName :=
  names.image (normalizeNameWith cat ws)

/-- The library harvester `extract_metadata_names` from
`metadata_names/__init__.py`, over an already-resolved file list.  The
walk body sits inside `try ... except KeyboardInterrupt: pass`, so an
interrupt falls through to the normalization of whatever was
accumulated; any other escaping exception propagates to the caller. -/
def extract_metadata_names (cat : Char → String) (ws : Char → Bool)
    (strict : Bool) (intr : Option Nat) (files : List InputFile) :
    Except RunError (Finset RawName) :=
  match walkWith (processFile strict) intr ∅ files with
  | WalkExit.finished names => Except.ok (normalizeSet cat ws names)
  | WalkExit.interrupted names => Except.ok (normalizeSet cat ws names)
  | WalkExit.failed e => Except.error e

/-- The CLI harvester variant from `extract_metadata_names.py`: the same
walk, but with the unguarded MIME detection step and with no
`KeyboardInterrupt` handler around the loop. -/
def extract_metadata_names_cli (strict : Bool) (intr : Option Nat)
    (files : List InputFile) : WalkExit :=
  walkWith (processFileCli strict) intr ∅ files

/-- The `main` entry point of `extract_metadata_names.py`, reduced to
what it prints: `some` of the normalized name set on success (printed
sorted), `none` when nothing is printed.  `KeyboardInterrupt` is caught
with `pass`, `UnsupportedMimetypeError` is logged as an error, and the
bare `except` logs any other failure; in all three cases the `else`
branch that prints the result does not run. -/
def cli_main (cat : Char → String) (ws : Char → Bool) (strict : Bool)
    (intr : Option Nat) (files : List InputFile) : Option (Finset RawName) :=
  match extract_metadata_names_cli strict intr files with
  | WalkExit.finished names => some (normalizeSet cat ws names)
  | WalkExit.interrupted _ => none
  | WalkExit.failed _ => none

/-! ## The local MSXML extractor (`metadata_names/extractors/msxml.py`)

`MSXMLMetadataExtractor.from_path` opens the document as a zip archive,
reads and parses `docProps/core.xml`, builds the core metadata, then
unconditionally reads and parses `docProps/app.xml` before returning.
The zip archive is embedded as a mapping from entry name to the
`xmltodict.parse` result of the entry; a parse result is a root element
name together with its child fields, a child being either a text value
or a one-level element dictionary (as for `dcterms:created`, whose text
sits under the "#text" key). -/

/-- A parsed XML child value: text content or a nested element
dictionary. -/
inductive XmlVal where
  | text (s : String)
  | elemDict (fields : List (String × String))
deriving DecidableEq

/-- The `xmltodict.parse` result of one zip entry: the root element name
mapped to its child fields. -/
structure XmlEntry where
  root : String
  fields : List (String × XmlVal)
deriving DecidableEq

/-- A zip archive: entry names mapped to parsed entry contents.
`read` embeds `ZipFile.read` composed with `xmltodict.parse`; a missing
entry raises `KeyError`, embedded as `none`. -/
structure ZipArchive where
  entries : List (String × XmlEntry)
deriving DecidableEq

def ZipArchive.read (z : ZipArchive) (name : String) : Option XmlEntry :=
  z.entries.lookup name

/-- Exceptions `MSXMLMetadataExtractor.from_path` can raise: a
`KeyError` (missing zip entry or missing root element key) or an
`AttributeError` (calling `.get` on a text value). -/
inductive PyError where
  | keyError (key : String)
  | attributeError
deriving DecidableEq

/-- The core metadata dictionary built by `from_path`. -/
structure MsxmlCoreMetadata where
  category : Option XmlVal
  contentStatus : Option XmlVal
  created : String
  creator : Option XmlVal
  description : Option XmlVal
  identifier : Option XmlVal
  keywords : Option XmlVal
  language : Option XmlVal
  lastModifiedBy : Option XmlVal
  lastPrinted : Option XmlVal
  modified : String
  revision : Option XmlVal
  subject : Option XmlVal
  title : Option XmlVal
  version : Option XmlVal
deriving DecidableEq

/-- The app metadata dictionary built by `from_path`. -/
structure MsxmlAppMetadata where
  Company : Option XmlVal
  Template : Option XmlVal
deriving DecidableEq

/-- The full `from_path` result: `{core, app}`. -/
structure MsxmlResult where
  core : MsxmlCoreMetadata
  app : MsxmlAppMetadata
deriving DecidableEq

/-- the lookup of "#text" with default empty string on `created` (and the same for `modified`): the value
defaults to `{}` when absent; calling `.get` on a text value raises an
`AttributeError`. -/
def dctermsText (v : Option XmlVal) : Except PyError String :=
  match v with
  | none => Except.ok ("")
  | some (XmlVal.elemDict fields) => Except.ok ((fields.lookup ("#text")).getD (""))
  | some (XmlVal.text _) => Except.error PyError.attributeError

/-- `MSXMLMetadataExtractor.from_path` from
`metadata_names/extractors/msxml.py`, step by step: read and parse
`docProps/core.xml`, index the result with the "cp:coreProperties" key, build
the core metadata, then read and parse `docProps/app.xml`, index the
result with the "Properties" key, build the app metadata, and return both. -/
def msxml_from_path (z : ZipArchive) : Except PyError MsxmlResult := do
  let coreEntry ← match z.read ("docProps/core.xml") with
    | none => Except.error (PyError.keyError ("docProps/core.xml"))
    | some e => Except.ok e
  let core_properties ←
    if coreEntry.root = "cp:coreProperties" then Except.ok coreEntry.fields
    else Except.error (PyError.keyError ("cp:coreProperties"))
  let created ← dctermsText (core_properties.lookup ("dcterms:created"))
  let modified ← dctermsText (core_properties.lookup ("dcterms:modified"))
  let core_metadata : MsxmlCoreMetadata := {
    category := core_properties.lookup ("cp:category")
    contentStatus := core_properties.lookup ("cp:contentStatus")
    created := created
    creator := core_properties.lookup ("dc:creator")
    description := core_properties.lookup ("dc:description")
    identifier := core_properties.lookup ("dc:identifier")
    keywords := core_properties.lookup ("cp:keywords")
    language := core_properties.lookup ("dc:language")
    lastModifiedBy := core_properties.lookup ("cp:lastModifiedBy")
    lastPrinted := core_properties.lookup ("cp:lastPrinted")
    modified := modified
    revision := core_properties.lookup ("cp:revision")
    subject := core_properties.lookup ("dc:subject")
    title := core_properties.lookup ("dc:title")
    version := core_properties.lookup ("cp:version") }
  let appEntry ← match z.read ("docProps/app.xml") with
    | none => Except.error (PyError.keyError ("docProps/app.xml"))
    | some e => Except.ok e
  let app_properties ←
    if appEntry.root = "Properties" then Except.ok appEntry.fields
    else Except.error (PyError.keyError ("Properties"))
  let app_metadata : MsxmlAppMetadata := {
    Company := app_properties.lookup ("Company")
    Template := app_properties.lookup ("Template") }
  Except.ok { core := core_metadata, app := app_metadata }

/-! ## Walk helper lemmas -/

/-- With no pending interrupt, a file every step leaves unchanged can be
removed from the walk without changing its outcome. -/
theorem walkWith_skip
    (step : Finset RawName → InputFile → Except RunError (Finset RawName))
    (f : InputFile) (h : ∀ n, step n f = Except.ok n) (post : List InputFile) :
    ∀ (pre : List InputFile) (names : Finset RawName),
      walkWith step none names (pre ++ f :: post) =
        walkWith step none names (pre ++ post) := by
  intro pre
  induction pre with
  | nil =>
    intro names
    show walkWith step none names (f :: post) = walkWith step none names post
    simp only [walkWith, h names, Option.map_none']
  | cons g pre ih =>
    intro names
    show walkWith step none names (g :: (pre ++ f :: post)) =
      walkWith step none names (g :: (pre ++ post))
    simp only [walkWith, Option.map_none']
    cases step names g with
    | error e => rfl
    | ok names1 => exact ih names1

/-- Interrupting the walk before its k-th file is the same as walking
only the first k files, except that the exit is reported as an
interrupt when the interrupt actually fires. -/
theorem walkWith_interrupt_take
    (step : Finset RawName → InputFile → Except RunError (Finset RawName)) :
    ∀ (files : List InputFile) (k : Nat) (names : Finset RawName),
      walkWith step (some k) names files =
        match walkWith step none names (files.take k) with
        | WalkExit.finished ns =>
          if k < files.length then WalkExit.interrupted ns else WalkExit.finished ns
        | e => e := by
  intro files
  induction files with
  | nil =>
    intro k names
    simp [walkWith]
  | cons f fs ih =>
    intro k names
    cases k with
    | zero =>
      simp [walkWith, List.take]
    | succ k =>
      show walkWith step (some (k + 1)) names (f :: fs) = _
      simp only [List.take, walkWith, Option.map_some', Nat.pred_succ]
      cases step names f with
      | error e => rfl
      | ok names1 =>
        show walkWith step (some k) names1 fs =
          match walkWith step none names1 (List.take k fs) with
          | WalkExit.finished ns =>
            if k + 1 < (f :: fs).length then WalkExit.interrupted ns
            else WalkExit.finished ns
          | e => e
        rw [ih k names1]
        cases walkWith step none names1 (List.take k fs) with
        | finished ns => simp [Nat.succ_lt_succ_iff]
        | interrupted ns => rfl
        | failed e => rfl

/-! ## Concrete fixtures -/

/-- The Word OOXML MIME type. -/
def docxMimetype : String :=
  "application/vnd.openxmlformats-officedocument.wordprocessingml.document"

/-- A .docx whose core creator is "Jane Q. Doe" (the C1 scenario). -/
def janeDocx : InputFile :=
  { path := "cv.docx"
    mimetype := some docxMimetype
    outcome := ExtractionOutcome.msxmlMeta (some
      { creator := some ("Jane Q. Doe".toList), lastModifiedBy := none }) }

/-- A corrupt .docx: the extractor call raises. -/
def corruptDocx : InputFile :=
  { path := "corrupt.docx"
    mimetype := some docxMimetype
    outcome := ExtractionOutcome.raises }

/-- An OLE .doc whose SummaryInformation author is "John". -/
def johnDoc : InputFile :=
  { path := "old.doc"
    mimetype := some ("application/msword")
    outcome := ExtractionOutcome.oleMeta (some [0x4A, 0x6F, 0x68, 0x6E]) none }

/-- An OLE .doc whose SummaryInformation author is a single period. -/
def dotDoc : InputFile :=
  { path := "dot.doc"
    mimetype := some ("application/msword")
    outcome := ExtractionOutcome.oleMeta (some [0x2E]) none }

/-- A PDF whose info-dictionary Author is a UTF-16BE BOM followed by the
UTF-16BE encoding of "Jo". -/
def bomPdf : InputFile :=
  { path := "doc.pdf"
    mimetype := some ("application/pdf")
    outcome := ExtractionOutcome.pdfMeta (some [0xFE, 0xFF, 0x00, 0x4A, 0x00, 0x6F]) }

/-! ## Claims about the normalizer -/

/-- C7: for every input string (and every classification the external
`unicodedata.category` and `str.isspace` collaborators could supply),
the normalizer output contains only characters whose Unicode general
category is in {"Lu", "Ll", "Zs"}, and its first and last characters are
not whitespace, so it has no leading or trailing whitespace. -/
theorem c7_normalizer_kept_categories_and_trimmed (cat : Char → String)
    (ws : Char → Bool) (s : List Char) :
    (∀ c ∈ normalizeNameWith cat ws s, cat c ∈ keptCategories)
    ∧ (∀ c, (normalizeNameWith cat ws s).head? = some c → ws c = false)
    ∧ (∀ c, (normalizeNameWith cat ws s).getLast? = some c → ws c = false) := by
  refine ⟨?_, ?_, ?_⟩
  · intro c hc
    have hmem : c ∈ s.filter (fun c => decide (cat c ∈ keptCategories)) :=
      mem_of_mem_pyStrip ws _ c hc
    exact of_decide_eq_true (List.mem_filter.mp hmem).2
  · exact head?_pyStrip_false ws _
  · exact getLast?_pyStrip_false ws _

/-- C7 witness: the normalizer applied to " a.b " keeps the letter a (a
lowercase letter) and leaves it as the non-whitespace head of the
output. -/
theorem c7_witness :
    latin1Category 'a' ∈ keptCategories ∧ latin1Isspace 'a' = false := by
  have h := c7_normalizer_kept_categories_and_trimmed latin1Category latin1Isspace
    (" a.b ".toList)
  refine ⟨h.1 'a' (by decide), h.2.1 'a' (by decide)⟩

/-- C8: normalization is idempotent: normalizing an already-normalized
string returns it unchanged, for every input string and every
classification the external collaborators could supply. -/
theorem c8_normalize_idempotent (cat : Char → String) (ws : Char → Bool)
    (s : List Char) :
    normalizeNameWith cat ws (normalizeNameWith cat ws s)
      = normalizeNameWith cat ws s := by
  show pyStrip ws ((normalizeNameWith cat ws s).filter
    (fun c => decide (cat c ∈ keptCategories))) = normalizeNameWith cat ws s
  have hfix : (normalizeNameWith cat ws s).filter
      (fun c => decide (cat c ∈ keptCategories)) = normalizeNameWith cat ws s := by
    rw [List.filter_eq_self]
    intro a ha
    exact (List.mem_filter.mp (mem_of_mem_pyStrip ws _ a ha)).2
  rw [hfix]
  exact pyStrip_idem ws _

/-- C9: a non-empty raw name can normalize to the empty string, and the
empty string is not filtered from the returned set: a run over an OLE
document whose author byte is a single period returns a set containing
the empty string. -/
theorem c9_empty_normalization_kept :
    (".".toList ≠ ([] : List Char))
    ∧ normalizeNameWith latin1Category latin1Isspace (".".toList) = []
    ∧ ∃ out, extract_metadata_names latin1Category latin1Isspace false none [dotDoc]
        = Except.ok out ∧ ([] : RawName) ∈ out := by
  refine ⟨by decide, by decide, ?_⟩
  exact ⟨_, rfl, by decide⟩

/-! ## Membership lemmas for the branch additions -/

theorem mem_addOoxmlNames_creator (core : OOXMLCoreProps)
    (names : Finset RawName) (c : RawName) (hc : core.creator = some c)
    (hcne : c ≠ []) : c ∈ addOoxmlNames core names := by
  unfold addOoxmlNames
  simp only [hc, if_neg hcne]
  cases core.lastModifiedBy with
  | none => exact Finset.mem_insert_self c names
  | some l =>
    show c ∈ if l = [] then insert c names else insert l (insert c names)
    by_cases hl : l = []
    · rw [if_pos hl]
      exact Finset.mem_insert_self c names
    · rw [if_neg hl]
      exact Finset.mem_insert_of_mem (Finset.mem_insert_self c names)

theorem mem_addOoxmlNames_lastModifiedBy (core : OOXMLCoreProps)
    (names : Finset RawName) (l : RawName) (hl : core.lastModifiedBy = some l)
    (hlne : l ≠ []) : l ∈ addOoxmlNames core names := by
  unfold addOoxmlNames
  simp only [hl, if_neg hlne]
  exact Finset.mem_insert_self l _

theorem mem_addOleNames_author (a lsb : Option ByteString)
    (names : Finset RawName) (bs : ByteString) (ha : a = some bs)
    (hne : bs ≠ []) : latin1Decode bs ∈ addOleNames a lsb names := by
  unfold addOleNames
  simp only [ha, if_neg hne]
  cases lsb with
  | none => exact Finset.mem_insert_self _ names
  | some bs2 =>
    show latin1Decode bs ∈
      if bs2 = [] then insert (latin1Decode bs) names
      else insert (latin1Decode bs2) (insert (latin1Decode bs) names)
    by_cases h2 : bs2 = []
    · rw [if_pos h2]
      exact Finset.mem_insert_self _ names
    · rw [if_neg h2]
      exact Finset.mem_insert_of_mem (Finset.mem_insert_self _ names)

theorem mem_addOleNames_lastSavedBy (a lsb : Option ByteString)
    (names : Finset RawName) (bs : ByteString) (hl : lsb = some bs)
    (hne : bs ≠ []) : latin1Decode bs ∈ addOleNames a lsb names := by
  unfold addOleNames
  simp only [hl, if_neg hne]
  exact Finset.mem_insert_self _ _

/-! ## Claims about the per-format harvesting branches -/

/-- C1: for every OOXML document whose core-properties section carries a
creator and/or last-modified-by value, the harvester loop iteration
succeeds and adds those raw string values to the accumulated name set;
in particular, a run over one .docx whose core creator is "Jane Q. Doe"
returns a normalized output set including "Jane Q Doe". -/
theorem c1_ooxml_names_harvested (strict : Bool) (names : Finset RawName)
    (p m : String) (core : OOXMLCoreProps)
    (hm : extractor_from_mime_type m = some ExtractorKind.msxml) :
    (∃ names2,
      processFile strict names
          { path := p, mimetype := some m,
            outcome := ExtractionOutcome.msxmlMeta (some core) }
        = Except.ok names2
      ∧ (∀ c, core.creator = some c → c ≠ [] → c ∈ names2)
      ∧ (∀ l, core.lastModifiedBy = some l → l ≠ [] → l ∈ names2))
    ∧ (∃ out,
      extract_metadata_names latin1Category latin1Isspace false none [janeDocx]
        = Except.ok out ∧ ("Jane Q Doe".toList) ∈ out) := by
  constructor
  · refine ⟨addOoxmlNames core names, ?_, ?_, ?_⟩
    · simp only [processFile, dispatchMetadata, hm, isFalsy, lookupCoreXml]
      rfl
    · intro c hc hcne
      exact mem_addOoxmlNames_creator core names c hc hcne
    · intro l hl hlne
      exact mem_addOoxmlNames_lastModifiedBy core names l hl hlne
  · exact ⟨_, rfl, by decide⟩

/-- C1 witness: the theorem applied to a one-file batch whose core
creator is "Jane Q. Doe" and whose last-modified-by is "Ann". -/
theorem c1_witness :
    ("Jane Q. Doe".toList) ∈ addOoxmlNames
      { creator := some ("Jane Q. Doe".toList),
        lastModifiedBy := some ("Ann".toList) } ∅
    ∧ ("Ann".toList) ∈ addOoxmlNames
      { creator := some ("Jane Q. Doe".toList),
        lastModifiedBy := some ("Ann".toList) } ∅ := by
  have h := c1_ooxml_names_harvested false ∅ "cv.docx" docxMimetype
    { creator := some ("Jane Q. Doe".toList), lastModifiedBy := some ("Ann".toList) }
    (by decide)
  obtain ⟨⟨names2, heq, hc, hl⟩, _⟩ := h
  have heq2 : names2 = addOoxmlNames
      { creator := some ("Jane Q. Doe".toList),
        lastModifiedBy := some ("Ann".toList) } ∅ := by
    have := heq.symm.trans (by
      simp only [processFile, dispatchMetadata, isFalsy, lookupCoreXml]
      rfl)
    exact (Except.ok.injEq _ _).mp this
  rw [← heq2]
  exact ⟨hc _ rfl (by decide), hl _ rfl (by decide)⟩

/-- C2: for every OLE document whose SummaryInformation carries an
author and/or last_saved_by byte-string value, the harvester loop
iteration succeeds and adds the latin-1 decoding of each such value to
the accumulated name set.  latin-1 decoding of a byte string is total,
so the decode-failure path of the claim cannot fire. -/
theorem c2_ole_names_decoded_latin1 (strict : Bool) (names : Finset RawName)
    (p m : String) (a lsb : Option ByteString)
    (hm : extractor_from_mime_type m = some ExtractorKind.ole) :
    ∃ names2,
      processFile strict names
          { path := p, mimetype := some m,
            outcome := ExtractionOutcome.oleMeta a lsb }
        = Except.ok names2
      ∧ (∀ bs, a = some bs → bs ≠ [] → latin1Decode bs ∈ names2)
      ∧ (∀ bs, lsb = some bs → bs ≠ [] → latin1Decode bs ∈ names2) := by
  refine ⟨addOleNames a lsb names, ?_, ?_, ?_⟩
  · simp only [processFile, dispatchMetadata, hm, isFalsy, lookupOleAuthor,
      lookupOleLastSavedBy]
    rfl
  · intro bs ha hne
    exact mem_addOleNames_author a lsb names bs ha hne
  · intro bs hl hne
    exact mem_addOleNames_lastSavedBy a lsb names bs hl hne

/-- C2 witness: the theorem applied to an OLE file whose author bytes
decode to "John" and whose last_saved_by bytes decode to "Ann". -/
theorem c2_witness :
    latin1Decode [0x4A, 0x6F, 0x68, 0x6E]
      ∈ addOleNames (some [0x4A, 0x6F, 0x68, 0x6E]) (some [0x41, 0x6E, 0x6E]) ∅
    ∧ latin1Decode [0x41, 0x6E, 0x6E]
      ∈ addOleNames (some [0x4A, 0x6F, 0x68, 0x6E]) (some [0x41, 0x6E, 0x6E]) ∅ := by
  have h := c2_ole_names_decoded_latin1 false ∅ "old.doc" "application/msword"
    (some [0x4A, 0x6F, 0x68, 0x6E]) (some [0x41, 0x6E, 0x6E]) (by decide)
  obtain ⟨names2, heq, ha, hl⟩ := h
  have heq2 : names2 = addOleNames (some [0x4A, 0x6F, 0x68, 0x6E])
      (some [0x41, 0x6E, 0x6E]) ∅ := by
    have := heq.symm.trans (by
      simp only [processFile, dispatchMetadata, isFalsy, lookupOleAuthor,
        lookupOleLastSavedBy]
      rfl)
    exact (Except.ok.injEq _ _).mp this
  rw [← heq2]
  exact ⟨ha _ rfl (by decide), hl _ rfl (by decide)⟩

/-- C6: for every PDF whose info-dictionary Author value is the two
bytes 0xFE 0xFF followed by further bytes, the harvester strips the
two-byte BOM before decoding (the added raw name is the latin-1 decoding
of the remainder alone), and the normalization of that name contains no
control characters (no character of category "Cc"). -/
theorem c6_pdf_bom_stripped_no_control (cat : Char → String) (ws : Char → Bool)
    (strict : Bool) (names : Finset RawName) (p m : String) (rest : ByteString)
    (hm : extractor_from_mime_type m = some ExtractorKind.pdf)
    (hr : rest ≠ []) :
    (∃ names2,
      processFile strict names
          { path := p, mimetype := some m,
            outcome := ExtractionOutcome.pdfMeta (some (0xFE :: 0xFF :: rest)) }
        = Except.ok names2
      ∧ latin1Decode rest ∈ names2)
    ∧ ∀ c ∈ normalizeNameWith cat ws (latin1Decode rest), cat c ≠ "Cc" := by
  constructor
  · refine ⟨addPdfName (some (0xFE :: 0xFF :: rest)) names, ?_, ?_⟩
    · simp only [processFile, dispatchMetadata, hm, isFalsy, lookupPdfAuthor]
      rfl
    · show latin1Decode rest ∈
        if latin1Decode (stripBom ((some (0xFE :: 0xFF :: rest)).getD [])) = []
        then names
        else insert (latin1Decode (stripBom ((some (0xFE :: 0xFF :: rest)).getD []))) names
      have hstrip : stripBom ((some (0xFE :: 0xFF :: rest)).getD []) = rest := rfl
      rw [hstrip]
      have hname : latin1Decode rest ≠ [] := by
        unfold latin1Decode
        simp [hr]
      rw [if_neg hname]
      exact Finset.mem_insert_self _ names
  · intro c hc hcc
    have hmem : c ∈ (latin1Decode rest).filter
        (fun c => decide (cat c ∈ keptCategories)) :=
      mem_of_mem_pyStrip ws _ c hc
    have hk : cat c ∈ keptCategories :=
      of_decide_eq_true (List.mem_filter.mp hmem).2
    rw [hcc] at hk
    exact absurd hk (by decide)

/-- C6 witness: the theorem applied to the PDF Author bytes
FE FF 00 4A 00 6F (the UTF-16BE encoding of "Jo" with its BOM). -/
theorem c6_witness :
    latin1Decode [0x00, 0x4A, 0x00, 0x6F]
      ∈ addPdfName (some [0xFE, 0xFF, 0x00, 0x4A, 0x00, 0x6F]) ∅
    ∧ latin1Category 'J' ≠ "Cc" := by
  have h := c6_pdf_bom_stripped_no_control latin1Category latin1Isspace false ∅
    ("doc.pdf") ("application/pdf") [0x00, 0x4A, 0x00, 0x6F] (by decide) (by decide)
  obtain ⟨⟨names2, heq, hmem⟩, hnc⟩ := h
  have heq2 : names2 = addPdfName (some [0xFE, 0xFF, 0x00, 0x4A, 0x00, 0x6F]) ∅ := by
    have := heq.symm.trans (by
      simp only [processFile, dispatchMetadata, isFalsy, lookupPdfAuthor]
      rfl)
    exact (Except.ok.injEq _ _).mp this
  refine ⟨heq2 ▸ hmem, hnc 'J' (by decide)⟩

/-- C4: for every file whose detected MIME type has no registered
extractor, with strict mode enabled the run aborts with an error that
carries exactly the offending MIME type and file path; with strict mode
disabled the file is skipped and a run over any batch containing it
equals the run over the batch without it. -/
theorem c4_unsupported_mimetype_behavior (cat : Char → String)
    (ws : Char → Bool) (m p : String) (o : ExtractionOutcome)
    (names : Finset RawName)
    (hm : extractor_from_mime_type m = none) :
    (processFile true names { path := p, mimetype := some m, outcome := o }
      = Except.error (RunError.unsupportedMimetype m p))
    ∧ (∀ fs, extract_metadata_names cat ws true none
        ({ path := p, mimetype := some m, outcome := o } :: fs)
      = Except.error (RunError.unsupportedMimetype m p))
    ∧ (processFile false names { path := p, mimetype := some m, outcome := o }
      = Except.ok names)
    ∧ (∀ pre post, extract_metadata_names cat ws false none
        (pre ++ { path := p, mimetype := some m, outcome := o } :: post)
      = extract_metadata_names cat ws false none (pre ++ post)) := by
  have hstrict : ∀ n : Finset RawName,
      processFile true n { path := p, mimetype := some m, outcome := o }
        = Except.error (RunError.unsupportedMimetype m p) := by
    intro n
    simp only [processFile, dispatchMetadata, hm]
    rfl
  have hskip : ∀ n : Finset RawName,
      processFile false n { path := p, mimetype := some m, outcome := o }
        = Except.ok n := by
    intro n
    simp only [processFile, dispatchMetadata, hm]
    rfl
  refine ⟨hstrict names, ?_, hskip names, ?_⟩
  · intro fs
    unfold extract_metadata_names
    simp only [walkWith, hstrict ∅]
  · intro pre post
    unfold extract_metadata_names
    rw [walkWith_skip (processFile false) _ hskip post pre ∅]

/-- C4 witness: the theorem applied to a text file, whose MIME type has
no registered extractor. -/
theorem c4_witness :
    extract_metadata_names latin1Category latin1Isspace true none
        [{ path := "notes.txt", mimetype := some ("text/plain"),
           outcome := ExtractionOutcome.emptyMeta }]
      = Except.error (RunError.unsupportedMimetype ("text/plain") ("notes.txt"))
    ∧ extract_metadata_names latin1Category latin1Isspace false none
        [{ path := "notes.txt", mimetype := some ("text/plain"),
           outcome := ExtractionOutcome.emptyMeta }, johnDoc]
      = extract_metadata_names latin1Category latin1Isspace false none [johnDoc] := by
  have h := c4_unsupported_mimetype_behavior latin1Category latin1Isspace
    ("text/plain") ("notes.txt") ExtractionOutcome.emptyMeta ∅ (by decide)
  exact ⟨h.2.1 [], h.2.2.2 [] [johnDoc]⟩

/-- C3 counterexample: a batch holding a corrupt .docx followed by a
healthy OLE document does not complete: the extractor failure is not
caught per file, the library harvester propagates it, and no name set is
returned (so the remaining path contributes nothing either). -/
theorem c3_counterexample :
    extract_metadata_names latin1Category latin1Isspace false none
      [corruptDocx, johnDoc] = Except.error RunError.uncaught := rfl

/-- C3 amended: the extractor failure on a corrupt OOXML archive is not
caught per file: the loop iteration propagates the exception, and a run
whose walk meets such a file aborts with that exception instead of
completing over the remaining paths, so no output set is produced. -/
theorem c3_corrupt_file_aborts_run (cat : Char → String) (ws : Char → Bool)
    (strict : Bool) (f : InputFile) (m : String) (kind : ExtractorKind)
    (names : Finset RawName)
    (hm : f.mimetype = some m)
    (hk : extractor_from_mime_type m = some kind)
    (ho : f.outcome = ExtractionOutcome.raises) :
    (processFile strict names f = Except.error RunError.uncaught)
    ∧ ∀ fs, extract_metadata_names cat ws strict none (f :: fs)
        = Except.error RunError.uncaught := by
  have h1 : ∀ n : Finset RawName,
      processFile strict n f = Except.error RunError.uncaught := by
    intro n
    simp only [processFile, hm, dispatchMetadata, hk, ho]
  refine ⟨h1 names, ?_⟩
  intro fs
  unfold extract_metadata_names
  simp only [walkWith, h1 ∅]

/-- C3 witness: the amended theorem applied to the concrete corrupt
.docx. -/
theorem c3_witness :
    processFile false ∅ corruptDocx = Except.error RunError.uncaught
    ∧ extract_metadata_names latin1Category latin1Isspace false none [corruptDocx]
      = Except.error RunError.uncaught := by
  have h := c3_corrupt_file_aborts_run latin1Category latin1Isspace false
    corruptDocx docxMimetype ExtractorKind.msxml ∅ rfl (by decide) rfl
  exact ⟨h.1, h.2 []⟩

/-- C5 counterexample: with an interrupt arriving after the first of two
files, the library harvester returns the normalized partial set (here
the name "John" from the first file), but the CLI prints nothing: its
own harvester variant does not catch the interrupt, and `main` catches
it and skips the printing branch. -/
theorem c5_counterexample :
    cli_main latin1Category latin1Isspace false (some 1) [johnDoc, janeDocx] = none
    ∧ extract_metadata_names latin1Category latin1Isspace false (some 1)
        [johnDoc, janeDocx] = Except.ok {("John".toList)} := ⟨rfl, rfl⟩

/-- C5 amended: an interrupt before the k-th file makes the library
harvester return exactly what a run over the first k files returns (the
normalized set of the names accumulated so far), while the CLI, whenever
its walk is actually interrupted, prints nothing. -/
theorem c5_interrupt_partial_results (cat : Char → String) (ws : Char → Bool)
    (strict : Bool) (k : Nat) (files : List InputFile) :
    (extract_metadata_names cat ws strict (some k) files
      = extract_metadata_names cat ws strict none (files.take k))
    ∧ (∀ ns, walkWith (processFileCli strict) (some k) ∅ files
          = WalkExit.interrupted ns
        → cli_main cat ws strict (some k) files = none) := by
  constructor
  · unfold extract_metadata_names
    rw [walkWith_interrupt_take (processFile strict) files k ∅]
    cases h : walkWith (processFile strict) none ∅ (files.take k) with
    | finished ns =>
      by_cases hlen : k < files.length
      · simp [hlen]
      · simp [hlen]
    | interrupted ns => rfl
    | failed e => rfl
  · intro ns h
    unfold cli_main extract_metadata_names_cli
    rw [h]

/-- C5 witness: the amended theorem applied to an interrupt arriving
before the only file of a one-file batch. -/
theorem c5_witness :
    extract_metadata_names latin1Category latin1Isspace false (some 0) [johnDoc]
      = extract_metadata_names latin1Category latin1Isspace false none
          ([johnDoc].take 0)
    ∧ cli_main latin1Category latin1Isspace false (some 0) [johnDoc] = none := by
  have h := c5_interrupt_partial_results latin1Category latin1Isspace false 0 [johnDoc]
  exact ⟨h.1, h.2 ∅ rfl⟩

/-! ## C10: the local MSXML extractor requires docProps/app.xml -/

theorem exceptBind_ok {ε α β : Type} (a : α) (f : α → Except ε β) :
    (Except.ok a : Except ε α) >>= f = f a := rfl

theorem exceptBind_error {ε α β : Type} (e : ε) (f : α → Except ε β) :
    (Except.error e : Except ε α) >>= f = Except.error e := rfl

/-- C10: the local OOXML extractor `MSXMLMetadataExtractor.from_path`
unconditionally reads the docProps/app.xml entry after docProps/core.xml:
for every archive with a valid core part but no app part, it raises a
`KeyError` for docProps/app.xml instead of returning the core metadata,
so such a document contributes no names. -/
theorem c10_msxml_requires_app_xml (z : ZipArchive) (coreEntry : XmlEntry)
    (hcore : z.read ("docProps/core.xml") = some coreEntry)
    (hroot : coreEntry.root = "cp:coreProperties")
    (hcreated : ∀ v, coreEntry.fields.lookup ("dcterms:created") = some v
      → ∃ d, v = XmlVal.elemDict d)
    (hmodified : ∀ v, coreEntry.fields.lookup ("dcterms:modified") = some v
      → ∃ d, v = XmlVal.elemDict d)
    (happ : z.read ("docProps/app.xml") = none) :
    msxml_from_path z = Except.error (PyError.keyError ("docProps/app.xml"))
    ∧ ∀ r, msxml_from_path z ≠ Except.ok r := by
  have hcr : ∃ s, dctermsText (coreEntry.fields.lookup ("dcterms:created"))
      = Except.ok s := by
    cases hv : coreEntry.fields.lookup ("dcterms:created") with
    | none => exact ⟨"", rfl⟩
    | some v =>
      obtain ⟨d, rfl⟩ := hcreated v hv
      exact ⟨_, rfl⟩
  have hmo : ∃ s, dctermsText (coreEntry.fields.lookup ("dcterms:modified"))
      = Except.ok s := by
    cases hv : coreEntry.fields.lookup ("dcterms:modified") with
    | none => exact ⟨"", rfl⟩
    | some v =>
      obtain ⟨d, rfl⟩ := hmodified v hv
      exact ⟨_, rfl⟩
  obtain ⟨s1, h1⟩ := hcr
  obtain ⟨s2, h2⟩ := hmo
  have hmain : msxml_from_path z
      = Except.error (PyError.keyError ("docProps/app.xml")) := by
    unfold msxml_from_path
    simp [hcore, hroot, h1, h2, happ, exceptBind_ok, exceptBind_error]
  refine ⟨hmain, ?_⟩
  intro r hok
  rw [hmain] at hok
  exact Except.noConfusion hok

/-- A zip archive with a valid core part and no app part. -/
def noAppArchive : ZipArchive :=
  { entries := [("docProps/core.xml",
      { root := "cp:coreProperties",
        fields := [("dc:creator", XmlVal.text ("Jane"))] })] }

/-- C10 witness: the theorem applied to the concrete archive lacking
docProps/app.xml. -/
theorem c10_witness :
    msxml_from_path noAppArchive
      = Except.error (PyError.keyError ("docProps/app.xml")) := by
  have h := c10_msxml_requires_app_xml noAppArchive
    { root := "cp:coreProperties",
      fields := [("dc:creator", XmlVal.text ("Jane"))] }
    rfl rfl
    (by intro v hv; exact Option.noConfusion hv)
    (by intro v hv; exact Option.noConfusion hv)
    rfl
  exact h.1
